import Mathlib

/-!
Shallow embedding of the pashmak execution core (`src/core/program.py`)
and proofs about its section table, call splicing, variable snapshots,
namespace resolution, try/catch protocol and mem register.

Modelling conventions:
* Python dicts become association lists with in-place value update
  (`dict_set`, `dict_get`); insertion order is preserved as in CPython.
* The call/state stack (`self.states`, a Python list appended/popped at
  the right end) is modelled with its top at the head of a `List`.
* `sys.exit(1)` after printing a diagnostic is the `StepResult.fatal`
  constructor; a Python exception escaping a method is `StepResult.crash`
  (for the dispatcher) or the `Except.error` branch (for `exec_func`),
  carrying the mutated state, since CPython keeps in-place mutations
  performed before the exception was raised.
* Machine integers are `Nat`; the only subtraction (`sections[label] - 1`
  in `raise_error`) is guarded by hypotheses `1 ≤ t` where a theorem
  depends on it, matching the fact that every recorded section index in
  the source is `i + 1` for a list position `i`.
-/

/-- Command name string for the label-declaration operation. -/
def cmd_section : String := "section"

/-- Command name string for the start of a function definition. -/
def cmd_func : String := "func"

/-- Command name string for the end of a function definition. -/
def cmd_endfunc : String := "endfunc"

/-- Command name string for the synthetic pop-state marker operation. -/
def cmd_popstate : String := "popstate"

/-- Command name string for the no-op operation. -/
def cmd_pass : String := "pass"

/-- Command name string for the module-inclusion operation. -/
def cmd_include : String := "include"

/-- Separator used when qualifying a name with a used namespace. -/
def dot_str : String := "."

/-- Empty string constant (raw argument text of synthesized operations). -/
def empty_str : String := ""

/-- Error kind for unresolved names (`SyntaxError` in the source). -/
def err_syntax : String := "SyntaxError"

/-- Error kind for handler failures (`RuntimeError` in the source). -/
def err_runtime : String := "RuntimeError"

/-- Message prefix of the undefined-operation error. -/
def msg_undef_pre : String := "undefined operation \""

/-- Closing quote of the undefined-operation error message. -/
def msg_quote : String := "\""

/-- Text of the Python IndexError raised by `list[0]` on an empty list;
used when an exception escaping `exec_func` is converted by the
dispatcher into a `RuntimeError` (its exact text is irrelevant to every
verified property). -/
def ex_msg : String := "list index out of range"

/-- Values stored in the Variable Store and the mem register: strings,
numbers, and the structured error payload
(`{'type': ..., 'message': ..., 'index': ...}`) written by `raise_error`. -/
inductive Val where
  | vstr (s : String)
  | vnat (n : Nat)
  | verror (etype : String) (emsg : String) (eindex : Nat)
deriving DecidableEq

/-- One parsed operation: command name, positional argument tokens, raw
argument text, original source text, and the index assigned at dispatch
time by `set_operation_index` (a Python dict key that may be absent
before first dispatch; modelled as a field defaulting to 0). -/
structure Op where
  command : String
  args : List String
  args_str : String
  str : String
  index : Nat := 0
deriving DecidableEq

/-- One call frame: `{'entry_point': ..., 'vars': dict(self.variables)}`. -/
structure Frame where
  entry_point : Nat
  vars : List (String × Val)
deriving DecidableEq

/-- The program state: the fields assigned in `Program.__init__`, in
source order (`self.variables` is the field `vars`, since `variables`
is reserved in Lean).  `current_func` is the attribute the source probes with
`try: self.current_func ... except AttributeError`, modelled as an
`Option` per the tagged-state reading of that idiom.  `main_filename`
(an OS path) is omitted: no modelled operation reads it. -/
structure Program where
  vars : List (String × Val)
  states : List Frame
  functions : List (String × List Op)
  operations : List Op
  sections : List (String × Nat)
  mem : Option Val
  is_test : Bool
  output : String
  runtime_error : Option (String × String × Op)
  is_in_try : Option String
  runed_functions : List Nat
  current_namespace : String
  used_namespaces : List String
  included_modules : List String
  current_func : Option String
  current_step : Nat
deriving DecidableEq

/-- Python dict read `d[k]` (first — and only, keys being unique —
binding wins; returns `none` where Python raises `KeyError`). -/
def dict_get {α : Type} (d : List (String × α)) (k : String) : Option α :=
  (d.find? (fun e => e.1 = k)).map (fun e => e.2)

/-- Python dict write `d[k] = v`: update the existing binding in place,
or append a new one (CPython preserves insertion order). -/
def dict_set {α : Type} (d : List (String × α)) (k : String) (v : α) :
    List (String × α) :=
  if d.any (fun e => e.1 = k) then
    d.map (fun e => if e.1 = k then (k, v) else e)
  else d ++ [(k, v)]

/-- Python `list.insert(i, x)`: inserts before position `i`, clamping to
an append when `i` is at or beyond the end. -/
def list_insert {α : Type} (i : Nat) (x : α) : List α → List α
  | [] => [x]
  | y :: ys =>
    match i with
    | 0 => x :: y :: ys
    | n + 1 => y :: list_insert n x ys

/-- Modelled from the spec: `Helpers.set_var` lives outside `src/`
(`core/helpers.py`); §3 describes the Variable Store as a name → value
mapping, so a variable write binds a name in `variables`. -/
def set_var (name : String) (v : Val) (p : Program) : Program :=
  { p with vars := dict_set p.vars name v }

/-- Modelled from the spec: `Helpers.get_var` lives outside `src/`;
reading a variable looks the name up in the Variable Store. -/
def get_var (name : String) (p : Program) : Option Val :=
  dict_get p.vars name

/-- Assignment `self.mem = v` as performed by `raise_error` and by the
argument-evaluation step of a function invocation. -/
def write_mem (v : Val) (p : Program) : Program :=
  { p with mem := some v }

/-- Program.get_mem: return the memory value and empty it. -/
def get_mem (p : Program) : Option Val × Program :=
  (p.mem, { p with mem := none })

/-- Program.set_operation_index: stamp the operation with the current
program-counter value (`op['index'] = self.current_step`). -/
def set_operation_index (p : Program) (op : Op) : Op :=
  { op with index := p.current_step }

/-- Program.update_section_indexes: after an insertion at position
`after_index`, add 1 to every section index strictly greater than
`after_index` (`if self.sections[k] > after_index`). -/
def update_section_indexes (after_index : Nat) (secs : List (String × Nat)) :
    List (String × Nat) :=
  secs.map (fun e => if after_index < e.2 then (e.1, e.2 + 1) else e)

/-- Operation synthesized by `parser.parse('pass')[0]` (the parser is an
external collaborator per §6; a single-command line parses to that
command with no arguments). -/
def pass_op : Op := { command := cmd_pass, args := [], args_str := empty_str, str := cmd_pass }

/-- Operation synthesized by `parser.parse('popstate')[0]`. -/
def popstate_op : Op :=
  { command := cmd_popstate, args := [], args_str := empty_str, str := cmd_popstate }

/-- Result of running one operation: `next` is a normal return to the
dispatcher loop, `fatal` is the diagnostic-printing `sys.exit(1)` branch
of `raise_error`, and `crash` is a Python exception escaping with the
state as already mutated. -/
inductive StepResult where
  | next (p : Program)
  | fatal (p : Program)
  | crash (p : Program)
deriving DecidableEq

/-- Unarmed branch of Program.raise_error (`self.is_in_try` is `None`):
in test mode record `[error_type, message, op]` in `runtime_error` and
return; otherwise print the diagnostic and `sys.exit(1)`. -/
def raise_unarmed (etype emsg : String) (op : Op) (p : Program) : StepResult :=
  if p.is_test then .next { p with runtime_error := some (etype, emsg, op) }
  else .fatal p

/-- Program.raise_error: if a try-context is armed, clear it, jump the
program counter to `sections[label] - 1` and put the error payload in
the mem register; the lookup `self.sections[str(section_index)]` raises
`KeyError` (modelled as `crash`) when the label is unknown, after
`is_in_try` has already been cleared.  Otherwise fall through to the
unarmed branch. -/
def raise_error (etype emsg : String) (op : Op) (p : Program) : StepResult :=
  match p.is_in_try with
  | some lbl =>
    match dict_get p.sections lbl with
    | some new_step =>
      .next (write_mem (.verror etype emsg op.index)
        { p with is_in_try := none, current_step := new_step - 1 })
    | none => .crash { p with is_in_try := none }
  | none => raise_unarmed etype emsg op p

/-- Insertion step of Program.exec_func: the adjacent pair
`self.operations.insert(idx, o); self.update_section_indexes(idx)`
(lines 148-149 and 153-154 of the source). -/
def insert_op (idx : Nat) (o : Op) (p : Program) : Program :=
  { p with operations := list_insert idx o p.operations,
           sections := update_section_indexes idx p.sections }

/-- Splice loop of Program.exec_func (the `for func_op in func_body`
loop, lines 136-150): walks the function body with a cursor `i` and an
`is_in_func` toggle; a label declaration not nested in an inner function
definition is recorded as `sections[name] = i + 1` and not inserted;
every other operation is stamped with the call site index, inserted at
`i + 1`, the section indexes are re-synchronized, and the cursor moves.
Reading `args[0]` of a section operation with no arguments raises a
Python IndexError, modelled as the `error` branch carrying the state as
mutated so far. -/
def splice_loop : List Op → Nat → Bool → Program → Except Program (Program × Nat)
  | [], i, _, p => .ok (p, i)
  | fop :: rest, i, is_in_func, p =>
    if fop.command = cmd_section ∧ ¬ is_in_func then
      match fop.args.head? with
      | none => .error p
      | some name =>
        splice_loop rest i is_in_func
          { p with sections := dict_set p.sections name (i + 1) }
    else
      splice_loop rest (i + 1)
        (if fop.command = cmd_func then true
         else if fop.command = cmd_endfunc then false
         else is_in_func)
        (insert_op (i + 1) { fop with index := p.current_step } p)

/-- Program.exec_func: runs a list of operations as a function body or
included script.  With `with_state` it first pushes a call frame holding
the entry point and a copy (`dict(self.variables)`) of the Variable
Store, then returns early if the current program counter is already in
`runed_functions`, otherwise records the call site, splices the body
into the operation stream, and finally splices the synthetic
`popstate` marker.  An exception escaping the splice loop is the
`error` branch (the pushed frame and prior insertions remain, as they
do for the in-place mutations of the source). -/
def exec_func (func_body : List Op) (with_state : Bool) (p0 : Program) :
    Except Program Program :=
  let p1 := if with_state then
      { p0 with states := ⟨p0.current_step, p0.vars⟩ :: p0.states }
    else p0
  if p1.runed_functions.contains p1.current_step ∧ with_state then .ok p1
  else
    let p2 := if with_state then
        { p1 with runed_functions := p1.runed_functions ++ [p1.current_step] }
      else p1
    match splice_loop func_body p2.current_step false p2 with
    | .error pe => .error pe
    | .ok (p3, i) =>
      if with_state then .ok (insert_op (i + 1) popstate_op p3)
      else .ok p3

/-- Global (bare-name) lookup at the end of the resolution chain,
raising the undefined-operation message on failure (source lines
279-284). -/
def resolve_global (fns : List (String × List Op)) (name : String) :
    Except String (List Op) :=
  match dict_get fns name with
  | some g => .ok g
  | none => .error (msg_undef_pre ++ name ++ msg_quote)

/-- Function-name resolution of Program.run (lines 269-284): first the
current-namespace-qualified name (`self.current_namespace + op_name`,
plain concatenation), then a loop over the used namespaces that keeps
overwriting `func_body` on every hit (so the last declared namespace
with a match wins — the loop has no break), and, when that leaves
`func_body` falsy (`None` or an empty body), the bare global name. -/
def resolve_function (fns : List (String × List Op)) (cur : String)
    (used : List String) (name : String) : Except String (List Op) :=
  match dict_get fns (cur ++ name) with
  | some b => .ok b
  | none =>
    match used.foldl
        (fun acc ns =>
          match dict_get fns (ns ++ dot_str ++ name) with
          | some b => some b
          | none => acc) none with
    | some b => if b.isEmpty then resolve_global fns name else .ok b
    | none => resolve_global fns name

/-- Modelled from the spec: the textual-expression evaluator applied to
a non-empty raw argument string is an external collaborator (§1, §6, §9
— the source delegates to the host language's `eval`); it is modelled
as injecting the raw text as a string value.  No verified property
depends on the produced value, only on the fact that it is written to
the mem register. -/
def eval_args_str (s : String) (_p : Program) : Val := .vstr s

/-- Modelled from the spec: `Helpers.run_endfunc` lives outside `src/`;
§4.3 describes leaving a function-definition region as closing the flat
definition toggle, i.e. clearing `current_func`. -/
def run_endfunc (_op : Op) (p : Program) : Program :=
  { p with current_func := none }

/-- Modelled from the spec: the remaining built-in command handlers
other than `include` (`run_set`, `run_free`, ..., `run_use`) live
outside `src/` (`core/helpers.py`).  Per §2 and §4.1 the side effects of
these data, I/O and namespace handlers are confined to the Variable
Store, the mem register, textual output and the file system — never the
Call Stack, Section Table or Operation Stream, which are the subjects
of every verified property — so they are modelled as leaving the
program state unchanged.  `include`, whose handler does splice the
stream and push a call frame (§2, §3), is modelled separately by
`run_include` and never reaches this stub. -/
def run_builtin (_op : Op) (p : Program) : Program := p

/-- Command names of the `elif` chain of Program.run (lines 183-265, in
source order): operations with these names are handled by built-in
handlers and never reach the function-invocation fallback. -/
def builtin_commands : List String :=
  [r"set", r"free", r"copy", r"out", r"read", r"return", r"func",
   r"required", r"typeof", r"system", r"include", r"goto", r"gotoif",
   r"fread", r"fwrite", r"chdir", r"cwd", r"isset", r"try", r"endtry",
   r"eval", r"arraypush", r"arraypop", r"python", r"namespace",
   r"endnamespace", r"use", r"pass"]

/-- Function-invocation fallback of Program.run (lines 269-308): resolve
the name; on failure raise `SyntaxError`; on success evaluate the raw
argument text into the mem register (an empty `args_str` writes the
empty string) and splice the body with `exec_func`; an exception
escaping that block is converted to a `RuntimeError` against the
current operation. -/
def invoke (op : Op) (p : Program) : StepResult :=
  match resolve_function p.functions p.current_namespace p.used_namespaces
      op.command with
  | .error msg => raise_error err_syntax msg op p
  | .ok func_body =>
    match exec_func func_body true
        (write_mem
          (if op.args_str = empty_str then .vstr empty_str
           else eval_args_str op.args_str p) p) with
    | .ok p2 => .next p2
    | .error p2 => raise_error err_runtime ex_msg op p2

/-- Modelled from the spec: rendering of a module identifier passed
through the mem register.  The bootstrap prelude that `set_operations`
builds is `mem "@stdlib"; include ^` (source lines 62-64), so `include`
receives its module name as the string value deposited in the mem
register; non-string values render as the empty identifier. -/
def mem_module_name : Option Val → String
  | some (.vstr s) => s
  | _ => empty_str

/-- Modelled from the spec: the lexer/parser and the file primitives
that turn a module identifier into its parsed operations are external
collaborators, and the standard-library scripts themselves are
explicitly out of scope (§1, §6).  The external module content is
modelled as the empty script; no verified property depends on the
included operations, only on the frame push and the idempotence set
that `run_include` itself manages. -/
def parse_module (_name : String) : List Op := []

/-- Modelled from the spec: `Helpers.run_include` lives outside `src/`.
Per §2 the Operation Stream supports positional insertion for inclusion
splicing; per §3 the Included-modules set makes inclusion idempotent
(a module already spliced in is skipped) and the Call Stack's depth
counts include invocations alongside function calls, so a fresh
inclusion runs the included script through `exec_func` with a call
frame; the module identifier is obtained by a `get_mem` read, whose two
effects — yielding `p.mem` and clearing the register — are written out
directly (`mem := none` in both branches). -/
def run_include (p : Program) : Except Program Program :=
  if p.included_modules.contains (mem_module_name p.mem) then
    .ok { p with mem := none }
  else
    exec_func (parse_module (mem_module_name p.mem)) true
      { p with mem := none,
               included_modules :=
                 p.included_modules ++ [mem_module_name p.mem] }

/-- Tail of Program.run after the definition-capture check: the `elif`
chain over built-in command names (each handler returning to the
dispatcher), with every unknown command falling through to the
function-invocation block.  `pass` (line 264) returns without touching
the state; `include` (line 213) dispatches to `run_include`, an
exception escaping it becoming a crash of the dispatcher as in the
source; the equality tests of the chain are disjoint, so testing
`pass` and `include` ahead of the remaining built-in names preserves
the source's dispatch. -/
def run_rest (op : Op) (p : Program) : StepResult :=
  if op.command = cmd_pass then .next p
  else if op.command = cmd_include then
    match run_include p with
    | .ok q => .next q
    | .error q => .crash q
  else if builtin_commands.contains op.command then .next (run_builtin op p)
  else invoke op p

/-- Program.run: stamp the operation with the current step, handle
`endfunc` and `popstate` first (`popstate` pops the top call frame when
the stack is non-empty and is silently a no-op otherwise), then append
the operation to the body of the function currently being defined
(skipped — with execution falling through to the command chain — when
`current_func` is unset or names a missing table entry, matching the
`except AttributeError / KeyError: pass` of the source), and finally
dispatch on the command name. -/
def run (op0 : Op) (p : Program) : StepResult :=
  let op := set_operation_index p op0
  if op.command = cmd_endfunc then .next (run_endfunc op p)
  else if op.command = cmd_popstate then
    match p.states with
    | _ :: rest => .next { p with states := rest }
    | [] => .next p
  else
    match p.current_func with
    | some f =>
      match dict_get p.functions f with
      | some body =>
        .next { p with functions := dict_set p.functions f (body ++ [op]) }
      | none => run_rest op p
    | none => run_rest op p

/-- Outcome of one iteration of the main loop of Program.start. -/
inductive StepOutcome where
  | running (p : Program)
  | halted (p : Program)
  | exited (p : Program)
  | crashed (p : Program)
deriving DecidableEq

/-- One iteration of the `while self.current_step < len(self.operations)`
loop of Program.start: fetch the current operation, run it (converting
an escaping exception into a `RuntimeError` raised against the, by then
possibly mutated, current operation, as the `except` clause does), and
advance the program counter by the default `+ 1`. -/
def step (p : Program) : StepOutcome :=
  match p.operations.get? p.current_step with
  | none => .halted p
  | some op =>
    match run op p with
    | .next q => .running { q with current_step := q.current_step + 1 }
    | .fatal q => .exited q
    | .crash q =>
      match raise_error err_runtime ex_msg
          (set_operation_index q (q.operations.getD q.current_step pass_op)) q with
      | .next q2 => .running { q2 with current_step := q2.current_step + 1 }
      | .fatal q2 => .exited q2
      | .crash q2 => .crashed q2

/-- Link pass of Program.start (the section-loading `while` loop, lines
322-335): a single forward pass that, outside function-definition
regions, records every label declaration as `sections[arg] = i + 1` and
replaces the declaration in place with `parser.parse('pass')[0]`;
`func` / `endfunc` toggle the region flag; `args[0]` of an
argument-less section raises IndexError (the `none` branch). -/
def link_loop : List Op → Nat → Bool → List (String × Nat) →
    Option (List Op × List (String × Nat))
  | [], _, _, secs => some ([], secs)
  | op :: rest, i, is_in_func, secs =>
    if op.command = cmd_section then
      if is_in_func then
        (link_loop rest (i + 1) is_in_func secs).map
          (fun r => (op :: r.1, r.2))
      else
        match op.args.head? with
        | none => none
        | some name =>
          (link_loop rest (i + 1) is_in_func (dict_set secs name (i + 1))).map
            (fun r => (pass_op :: r.1, r.2))
    else if op.command = cmd_func then
      (link_loop rest (i + 1) true secs).map (fun r => (op :: r.1, r.2))
    else if op.command = cmd_endfunc then
      (link_loop rest (i + 1) false secs).map (fun r => (op :: r.1, r.2))
    else
      (link_loop rest (i + 1) is_in_func secs).map (fun r => (op :: r.1, r.2))

/-- The link pass as Program.start invokes it: from position 0, outside
any function-definition region, into the (empty at start-up) section
table. -/
def link_pass (ops : List Op) : Option (List Op × List (String × Nat)) :=
  link_loop ops 0 false []

/-- Command name string of the `out` handler (used as an inert payload
operation in concrete examples). -/
def cmd_out : String := "out"

/-- Example function name used in concrete resolution examples. -/
def name_f : String := "f"

/-- Example used-namespace name. -/
def ns_a : String := "a"

/-- Example used-namespace name. -/
def ns_b : String := "b"

/-- Example current-namespace prefix (with the trailing separator the
definitions are stored with). -/
def cur_m : String := "m."

/-- Example label name. -/
def lbl_l : String := "L"

/-- Example label name used for try/catch examples. -/
def lbl_catch : String := "catch"

/-- Example variable name. -/
def var_x : String := "x"

/-- Example payload operation (an `out` line). -/
def op_out : Op := { command := cmd_out, args := [], args_str := empty_str, str := cmd_out }

/-- Example label-declaration operation `section L`. -/
def op_section_l : Op :=
  { command := cmd_section, args := [lbl_l], args_str := lbl_l, str := cmd_section }

/-- Program state as `Program.__init__(is_test=True, args=[])` builds it
(minus `argv` / `argc`, which are irrelevant to every verified claim),
used as the base of the concrete examples. -/
def base_prog : Program :=
  { vars := [], states := [], functions := [], operations := [],
    sections := [], mem := none, is_test := true, output := empty_str,
    runtime_error := none, is_in_try := none, runed_functions := [],
    current_namespace := empty_str, used_namespaces := [],
    included_modules := [], current_func := none, current_step := 0 }

/-- Toggle state of the `is_in_func` flag after a prefix of operations,
as both the link pass of Program.start and the splice loop of
Program.exec_func maintain it: `func` sets it, `endfunc` clears it,
everything else leaves it. -/
def func_toggle (init : Bool) (ops : List Op) : Bool :=
  ops.foldl
    (fun b op =>
      if op.command = cmd_func then true
      else if op.command = cmd_endfunc then false
      else b) init

/-- Whether the splice loop, walking `body` with initial toggle `inF`,
treats some operation as a declaration of the label `name` (and hence
overwrites that section-table entry). -/
def body_declares : List Op → Bool → String → Bool
  | [], _, _ => false
  | op :: rest, inF, name =>
    if op.command = cmd_section ∧ ¬ inF then
      (op.args.head? == some name) || body_declares rest inF name
    else
      body_declares rest
        (if op.command = cmd_func then true
         else if op.command = cmd_endfunc then false
         else inF) name

/-- Last used namespace (in declaration order) whose qualification of
`name` is present in the function table, together with its body: an
independent rendering, via `List.reverse` and `List.find?`, of what the
break-less overwrite loop of the source computes. -/
def last_used_match (fns : List (String × List Op)) (used : List String)
    (name : String) : Option (List Op) :=
  match used.reverse.find?
      (fun ns => (dict_get fns (ns ++ dot_str ++ name)).isSome) with
  | some ns => dict_get fns (ns ++ dot_str ++ name)
  | none => none

/-- First used namespace (in declaration order) whose qualification of
`name` is present in the function table, with its body. -/
def first_used_match (fns : List (String × List Op)) (used : List String)
    (name : String) : Option (List Op) :=
  match used.find?
      (fun ns => (dict_get fns (ns ++ dot_str ++ name)).isSome) with
  | some ns => dict_get fns (ns ++ dot_str ++ name)
  | none => none

/-- Resolution order exactly as claim C2 words it: (a) the
current-namespace-qualified name, (b) each used-namespace-qualified
name in declaration order with the FIRST match winning, (c) the bare
global name; unresolved names fail with the undefined-operation
message.  This definition follows the claim, not the source, and is
compared against `resolve_function`. -/
def resolve_spec_first (fns : List (String × List Op)) (cur : String)
    (used : List String) (name : String) : Except String (List Op) :=
  match dict_get fns (cur ++ name) with
  | some b => .ok b
  | none =>
    match first_used_match fns used name with
    | some b => .ok b
    | none => resolve_global fns name

/-- Resolution order as amended: (a) the current-namespace-qualified
name, (b) the used-namespace-qualified names with the LAST match in
declaration order winning and an empty-bodied match falling through,
(c) the bare global name.  This definition follows the amended claim's
words (via `last_used_match`) and is proved equal to
`resolve_function`. -/
def resolve_spec_last (fns : List (String × List Op)) (cur : String)
    (used : List String) (name : String) : Except String (List Op) :=
  match dict_get fns (cur ++ name) with
  | some b => .ok b
  | none =>
    match last_used_match fns used name with
    | some b => if b.isEmpty then resolve_global fns name else .ok b
    | none => resolve_global fns name

/-- Whether a resolution attempt succeeded. -/
def resolve_ok : Except String (List Op) → Bool
  | .ok _ => true
  | .error _ => false

/-- Whether Program.run would capture the operation into the body of a
function currently being defined (`current_func` is set and present in
the function table). -/
def definition_capture (p : Program) : Bool :=
  match p.current_func with
  | some f => (dict_get p.functions f).isSome
  | none => false

/-- Whether running `op` in state `p` reaches the function-invocation
fallback with a successfully resolved name (the only dispatch path that
pushes a call frame). -/
def is_invocation (op : Op) (p : Program) : Bool :=
  !(op.command == cmd_endfunc) && !(op.command == cmd_popstate) &&
  !(definition_capture p) && !(builtin_commands.contains op.command) &&
  resolve_ok (resolve_function p.functions p.current_namespace
    p.used_namespaces op.command)

/-- Whether running `op` in state `p` reaches `run_include` with a
module that has not been included yet — the inclusion path that pushes
a call frame (a repeated include is skipped by the idempotence set and
pushes none). -/
def is_fresh_include (op : Op) (p : Program) : Bool :=
  (op.command == cmd_include) && !(definition_capture p) &&
  !(p.included_modules.contains (mem_module_name p.mem))

/-- Function table of the C2 examples: `a.f` and `b.f` are both
defined, with distinguishable bodies. -/
def ex_fns : List (String × List Op) :=
  [(ns_a ++ dot_str ++ name_f, [op_out]), (ns_b ++ dot_str ++ name_f, [pass_op])]

/-- Start state of the C3 example: the caller holds `x = 1` and is
about to invoke a function at step 0. -/
def c3_start : Program :=
  { base_prog with vars := [(var_x, Val.vnat 1)], operations := [op_out] }

/-- State of the C3 example after `exec_func` has entered the call
(frame pushed, empty body spliced, marker inserted). -/
def c3_called : Program :=
  match exec_func [] true c3_start with
  | .ok q => q
  | .error q => q

/-- One-operation program consisting of a bare `popstate`, dispatched
with an empty call stack. -/
def ex_popstate_prog : Program := { base_prog with operations := [popstate_op] }

/-- Program state of the C1 examples: the program counter sits at
position 1 and the section table holds `L -> 2` (the boundary entry,
immediately after the splice point) and `catch -> 5`. -/
def c1_prog : Program :=
  { base_prog with
      current_step := 1,
      sections := [(lbl_l, 2), (lbl_catch, 5)],
      operations := [pass_op, pass_op, pass_op] }

/-- Result state of splicing the one-operation body `[op_out]` at
position 1 of `c1_prog`. -/
def c1_spliced : Program :=
  match splice_loop [op_out] 1 false c1_prog with
  | .ok (q, _) => q
  | .error q => q

/-- Program state with exactly one call frame, used to exercise the
frame-popping path of `popstate`. -/
def c6_prog : Program := { base_prog with states := [Frame.mk 0 []] }

/-- The state `c6_prog` after its single frame is popped. -/
def c6_popped : Program := { c6_prog with states := [] }

/-- Program state with an armed try-context targeting `catch -> 2` and
a stale value sitting unread in the mem register. -/
def c4_prog : Program :=
  { base_prog with
      is_in_try := some lbl_catch,
      sections := [(lbl_catch, 2)],
      mem := some (Val.vstr empty_str) }

/-- Program state whose call-site guard set already contains the
current program counter. -/
def c5_prog : Program := { base_prog with runed_functions := [0] }

/-- Reading an association list headed by one binding. -/
theorem dict_get_cons {α : Type} (e : String × α) (rest : List (String × α))
    (k : String) :
    dict_get (e :: rest) k = if e.1 = k then some e.2 else dict_get rest k := by
  unfold dict_get
  by_cases h : e.1 = k
  · rw [List.find?_cons_of_pos _ (by simpa using h)]
    simp [h]
  · rw [List.find?_cons_of_neg _ (by simpa using h)]
    simp [h]

/-- Key-wise effect of the in-place map branch of `dict_set`. -/
theorem dict_get_map_subst {α : Type} (d : List (String × α)) (k k' : String)
    (v : α) :
    dict_get (d.map (fun e => if e.1 = k then (k, v) else e)) k' =
      if k' = k then (if d.any (fun e => e.1 = k) then some v else none)
      else dict_get d k' := by
  induction d with
  | nil => by_cases h : k' = k <;> simp [dict_get, h]
  | cons e rest ih =>
    by_cases he : e.1 = k
    · by_cases hk : k' = k
      · subst hk
        simp [List.map_cons, List.any_cons, he, dict_get_cons]
      · have hk2 : ¬ k = k' := fun hc => hk hc.symm
        have he2 : ¬ e.1 = k' := by rw [he]; exact hk2
        simp [List.map_cons, List.any_cons, he, dict_get_cons, hk, hk2, he2, ih]
    · by_cases hk : k' = k
      · subst hk
        have he2 : ¬ e.1 = k' := he
        simp [List.map_cons, List.any_cons, he, dict_get_cons, he2, ih]
        cases hD : (decide (e.1 = k') : Bool) with
        | true => exact absurd (of_decide_eq_true hD) he
        | false => rw [Bool.false_or]
      · by_cases hh : e.1 = k'
        · simp [List.map_cons, he, dict_get_cons, hh, hk]
        · simp [List.map_cons, he, dict_get_cons, hh, hk, ih]

/-- Reading after an append of a single new binding. -/
theorem dict_get_append_single {α : Type} (d : List (String × α))
    (k k' : String) (v : α) :
    dict_get (d ++ [(k, v)]) k' =
      match dict_get d k' with
      | some x => some x
      | none => if k' = k then some v else none := by
  unfold dict_get
  rw [List.find?_append]
  cases hfind : List.find? (fun e => decide (e.1 = k')) d with
  | none =>
    by_cases hk : k' = k
    · subst hk
      simp [Option.or, List.find?]
    · have hk2 : ¬ k = k' := fun hc => hk hc.symm
      simp [Option.or, List.find?, hk, hk2]
  | some x => simp [Option.or]

/-- When no binding for a key exists, reading it gives `none`. -/
theorem dict_get_of_any_false {α : Type} (d : List (String × α)) (k : String)
    (h : ¬ d.any (fun e => e.1 = k) = true) : dict_get d k = none := by
  unfold dict_get
  rw [List.find?_eq_none.2]
  · rfl
  · intro x hx hpx
    exact h (List.any_eq_true.2 ⟨x, hx, hpx⟩)

/-- Complete key-wise description of a Python dict write. -/
theorem dict_get_set {α : Type} (d : List (String × α)) (k k' : String)
    (v : α) :
    dict_get (dict_set d k v) k' =
      if k' = k then some v else dict_get d k' := by
  unfold dict_set
  by_cases hany : d.any (fun e => e.1 = k) = true
  · rw [if_pos hany, dict_get_map_subst, if_pos hany]
  · rw [if_neg hany, dict_get_append_single]
    by_cases hk : k' = k
    · subst hk
      rw [dict_get_of_any_false d k' hany]
    · cases hget : dict_get d k' <;> simp [hk]

/-- Key-wise effect of `update_section_indexes`. -/
theorem dict_get_update_section_indexes (secs : List (String × Nat)) (a : Nat)
    (name : String) :
    dict_get (update_section_indexes a secs) name =
      (dict_get secs name).map (fun v => if a < v then v + 1 else v) := by
  induction secs with
  | nil => rfl
  | cons e rest ih =>
    unfold update_section_indexes at *
    rw [List.map_cons, dict_get_cons, dict_get_cons]
    by_cases hk : e.1 = name
    · by_cases ha : a < e.2 <;> simp [ha, hk]
    · by_cases ha : a < e.2 <;> simp [ha, hk, ih]

/-- The cursor of the splice loop never moves backwards. -/
theorem splice_loop_le (body : List Op) :
    ∀ (i : Nat) (inF : Bool) (p q : Program) (j : Nat),
      splice_loop body i inF p = .ok (q, j) → i ≤ j := by
  induction body with
  | nil =>
    intro i inF p q j h
    simp [splice_loop] at h
    omega
  | cons fop rest ih =>
    intro i inF p q j h
    rw [splice_loop] at h
    split at h
    · cases hh : fop.args.head? with
      | none => rw [hh] at h; simp at h
      | some nm =>
        rw [hh] at h
        exact ih i inF _ q j h
    · have := ih (i + 1) _ _ q j h
      omega

/-- Main index-shift lemma for the splice loop of Program.exec_func:
a previously recorded section entry `v` whose label the spliced body
does not re-declare ends up at `v + k` (where `k = j - i` is the number
of operations physically inserted) exactly when `v ≥ i + 2`, and is
left unchanged — including the boundary entry `v = i + 1` — otherwise. -/
theorem splice_loop_sections (body : List Op) :
    ∀ (i : Nat) (inF : Bool) (p q : Program) (j : Nat) (name : String) (v : Nat),
      splice_loop body i inF p = .ok (q, j) →
      body_declares body inF name = false →
      dict_get p.sections name = some v →
      dict_get q.sections name = some (if i + 2 ≤ v then v + (j - i) else v) := by
  induction body with
  | nil =>
    intro i inF p q j name v h _ hv
    simp [splice_loop] at h
    obtain ⟨hq, hj⟩ := h
    subst hq
    subst hj
    rw [hv]
    congr 1
    split <;> omega
  | cons fop rest ih =>
    intro i inF p q j name v h hdecl hv
    rw [splice_loop] at h
    rw [body_declares] at hdecl
    split at h
    · rename_i hc
      rw [if_pos hc] at hdecl
      have hd : (fop.args.head? == some name) = false ∧
          body_declares rest inF name = false := by
        cases hb : (fop.args.head? == some name) with
        | true => rw [hb] at hdecl; simp at hdecl
        | false => rw [hb] at hdecl; simp at hdecl; exact ⟨rfl, hdecl⟩
      cases hh : fop.args.head? with
      | none => rw [hh] at h; simp at h
      | some nm =>
        rw [hh] at h
        have hnm : ¬ nm = name := by
          have := hd.1
          rw [hh] at this
          simpa using this
        have hv2 : dict_get (dict_set p.sections nm (i + 1)) name = some v := by
          rw [dict_get_set, if_neg (fun hx => hnm hx.symm)]
          exact hv
        exact ih i inF _ q j name v h hd.2 hv2
    · rename_i hc
      rw [if_neg hc] at hdecl
      have hv2 : dict_get (insert_op (i + 1)
          { fop with index := p.current_step } p).sections name =
          some (if i + 1 < v then v + 1 else v) := by
        show dict_get (update_section_indexes (i + 1) p.sections) name = _
        rw [dict_get_update_section_indexes, hv]
        rfl
      have hle := splice_loop_le rest (i + 1) _ _ q j h
      have hIH := ih (i + 1) _ _ q j name _ h hdecl hv2
      rw [hIH]
      congr 1
      split_ifs <;> omega

/-- The splice loop never touches the call stack (success case). -/
theorem splice_loop_states_ok (body : List Op) :
    ∀ (i : Nat) (inF : Bool) (p q : Program) (j : Nat),
      splice_loop body i inF p = .ok (q, j) → q.states = p.states := by
  induction body with
  | nil =>
    intro i inF p q j h
    simp [splice_loop] at h
    rw [← h.1]
  | cons fop rest ih =>
    intro i inF p q j h
    rw [splice_loop] at h
    split at h
    · cases hh : fop.args.head? with
      | none => rw [hh] at h; simp at h
      | some nm =>
        rw [hh] at h
        exact ih i inF { p with sections := dict_set p.sections nm (i + 1) } q j h
    · exact ih (i + 1) _ (insert_op (i + 1) { fop with index := p.current_step } p) q j h

/-- The splice loop never touches the call stack (exception case). -/
theorem splice_loop_states_err (body : List Op) :
    ∀ (i : Nat) (inF : Bool) (p q : Program),
      splice_loop body i inF p = .error q → q.states = p.states := by
  induction body with
  | nil =>
    intro i inF p q h
    simp [splice_loop] at h
  | cons fop rest ih =>
    intro i inF p q h
    rw [splice_loop] at h
    split at h
    · cases hh : fop.args.head? with
      | none =>
        rw [hh] at h
        cases h
        rfl
      | some nm =>
        rw [hh] at h
        exact ih i inF { p with sections := dict_set p.sections nm (i + 1) } q h
    · exact ih (i + 1) _ (insert_op (i + 1) { fop with index := p.current_step } p) q h

/-- Entering `exec_func` with a call frame pushes exactly that frame,
whether the guard fires, the body splices, or the splice loop raises. -/
theorem exec_func_true_states (fb : List Op) (p : Program) :
    (∀ q, exec_func fb true p = .ok q →
      q.states = Frame.mk p.current_step p.vars :: p.states) ∧
    (∀ q, exec_func fb true p = .error q →
      q.states = Frame.mk p.current_step p.vars :: p.states) := by
  unfold exec_func
  simp only [if_true]
  constructor
  · intro q h
    split at h
    · cases h
      rfl
    · split at h
      · simp at h
      · rename_i p3 i hsp
        cases h
        exact splice_loop_states_ok fb _ _ _ _ _ hsp
  · intro q h
    split at h
    · simp at h
    · split at h
      · rename_i pe hsp
        cases h
        exact splice_loop_states_err fb _ _ _ _ hsp
      · rename_i p3 i hsp
        simp at h

/-- A `raise_error` call that returns to the dispatcher leaves the call
stack untouched. -/
theorem raise_error_next_states (e m : String) (op : Op) (p q : Program)
    (h : raise_error e m op p = .next q) : q.states = p.states := by
  unfold raise_error raise_unarmed write_mem at h
  split at h
  · split at h
    · cases h
      rfl
    · simp at h
  · split at h
    · cases h
      rfl
    · simp at h

/-- The break-less overwrite loop over the used namespaces computes the
last successful lookup (first hit of the reversed list). -/
theorem foldl_overwrite_eq_last (f : String → Option (List Op)) :
    ∀ (used : List String) (init : Option (List Op)),
      used.foldl
          (fun acc ns =>
            match f ns with
            | some b => some b
            | none => acc) init =
        match used.reverse.find? (fun ns => (f ns).isSome) with
        | some ns => f ns
        | none => init := by
  intro used
  induction used with
  | nil => intro init; rfl
  | cons ns rest ih =>
    intro init
    rw [List.foldl_cons, ih]
    rw [List.reverse_cons, List.find?_append]
    cases hfind : rest.reverse.find? (fun ns => (f ns).isSome) with
    | some m => simp [Option.or]
    | none =>
      cases hfs : f ns with
      | some b => simp [Option.or, List.find?, hfs]
      | none => simp [Option.or, List.find?, hfs]

/-- One step of the `is_in_func` toggle. -/
theorem func_toggle_cons (init : Bool) (o : Op) (l : List Op) :
    func_toggle init (o :: l) =
      func_toggle
        (if o.command = cmd_func then true
         else if o.command = cmd_endfunc then false
         else init) l := rfl

/-- A label declaration leaves the toggle unchanged. -/
theorem toggle_step_section (init : Bool) (o : Op)
    (h : o.command = cmd_section) :
    (if o.command = cmd_func then true
     else if o.command = cmd_endfunc then false
     else init) = init := by
  rw [h]
  simp [cmd_section, cmd_func, cmd_endfunc]

/-- Positional characterization of the link pass: a position holding a
label declaration outside function-definition regions is replaced by
the synthesized `pass` operation, and every other position is left
untouched. -/
theorem link_loop_get :
    ∀ (ops : List Op) (i : Nat) (inF : Bool) (secs : List (String × Nat))
      (ops2 : List Op) (secs2 : List (String × Nat)),
      link_loop ops i inF secs = some (ops2, secs2) →
      ∀ (k : Nat) (op : Op), ops.get? k = some op →
        ops2.get? k =
          (if op.command = cmd_section ∧ func_toggle inF (ops.take k) = false
           then some pass_op else some op) := by
  intro ops
  induction ops with
  | nil =>
    intro i inF secs ops2 secs2 h k op hget
    simp at hget
  | cons o rest ih =>
    intro i inF secs ops2 secs2 h k op hget
    rw [link_loop] at h
    by_cases hsec : o.command = cmd_section
    · rw [if_pos hsec] at h
      by_cases hin : inF
      · rw [if_pos hin] at h
        cases hrec : link_loop rest (i + 1) inF secs with
        | none => rw [hrec] at h; simp at h
        | some r =>
          rw [hrec] at h
          simp only [Option.map_some'] at h
          cases h
          cases k with
          | zero =>
            simp only [List.get?_cons_zero, Option.some.injEq] at hget
            subst hget
            simp [func_toggle, hin]
          | succ k =>
            simp only [List.get?_cons_succ] at hget ⊢
            rw [ih (i + 1) inF secs r.1 r.2 hrec k op hget]
            rw [List.take_succ_cons, func_toggle_cons, toggle_step_section inF o hsec]
      · rw [if_neg hin] at h
        cases hh : o.args.head? with
        | none =>
          simp only [hh] at h
          exact Option.noConfusion h
        | some nm =>
          simp only [hh] at h
          cases hrec : link_loop rest (i + 1) inF (dict_set secs nm (i + 1)) with
          | none => rw [hrec] at h; simp at h
          | some r =>
            rw [hrec] at h
            simp only [Option.map_some'] at h
            cases h
            cases k with
            | zero =>
              simp only [List.get?_cons_zero, Option.some.injEq] at hget
              subst hget
              have hin' : inF = false := by
                revert hin
                cases inF <;> simp
              simp [func_toggle, hsec, hin']
            | succ k =>
              simp only [List.get?_cons_succ] at hget ⊢
              rw [ih (i + 1) inF (dict_set secs nm (i + 1)) r.1 r.2 hrec k op hget]
              rw [List.take_succ_cons, func_toggle_cons, toggle_step_section inF o hsec]
    · rw [if_neg hsec] at h
      by_cases hf : o.command = cmd_func
      · rw [if_pos hf] at h
        cases hrec : link_loop rest (i + 1) true secs with
        | none => rw [hrec] at h; simp at h
        | some r =>
          rw [hrec] at h
          simp only [Option.map_some'] at h
          cases h
          cases k with
          | zero =>
            simp only [List.get?_cons_zero, Option.some.injEq] at hget
            subst hget
            simp [hsec]
          | succ k =>
            simp only [List.get?_cons_succ] at hget ⊢
            rw [ih (i + 1) true secs r.1 r.2 hrec k op hget]
            rw [List.take_succ_cons, func_toggle_cons, if_pos hf]
      · rw [if_neg hf] at h
        by_cases he : o.command = cmd_endfunc
        · rw [if_pos he] at h
          cases hrec : link_loop rest (i + 1) false secs with
          | none => rw [hrec] at h; simp at h
          | some r =>
            rw [hrec] at h
            simp only [Option.map_some'] at h
            cases h
            cases k with
            | zero =>
              simp only [List.get?_cons_zero, Option.some.injEq] at hget
              subst hget
              simp [hsec]
            | succ k =>
              simp only [List.get?_cons_succ] at hget ⊢
              rw [ih (i + 1) false secs r.1 r.2 hrec k op hget]
              rw [List.take_succ_cons, func_toggle_cons, if_neg hf, if_pos he]
        · rw [if_neg he] at h
          cases hrec : link_loop rest (i + 1) inF secs with
          | none => rw [hrec] at h; simp at h
          | some r =>
            rw [hrec] at h
            simp only [Option.map_some'] at h
            cases h
            cases k with
            | zero =>
              simp only [List.get?_cons_zero, Option.some.injEq] at hget
              subst hget
              simp [hsec]
            | succ k =>
              simp only [List.get?_cons_succ] at hget ⊢
              rw [ih (i + 1) inF secs r.1 r.2 hrec k op hget]
              rw [List.take_succ_cons, func_toggle_cons, if_neg hf, if_neg he]

/-- When the walked operations never declare a label, the link pass
leaves that label's section-table entry unchanged. -/
theorem link_loop_secs_nodecl :
    ∀ (ops : List Op) (i : Nat) (inF : Bool) (secs : List (String × Nat))
      (ops2 : List Op) (secs2 : List (String × Nat)) (name : String),
      link_loop ops i inF secs = some (ops2, secs2) →
      body_declares ops inF name = false →
      dict_get secs2 name = dict_get secs name := by
  intro ops
  induction ops with
  | nil =>
    intro i inF secs ops2 secs2 name h _
    simp [link_loop] at h
    rw [← h.2]
  | cons o rest ih =>
    intro i inF secs ops2 secs2 name h hdecl
    rw [link_loop] at h
    rw [body_declares] at hdecl
    by_cases hsec : o.command = cmd_section
    · rw [if_pos hsec] at h
      by_cases hin : inF
      · rw [if_pos hin] at h
        rw [if_neg (fun hc => hc.2 hin)] at hdecl
        rw [toggle_step_section inF o hsec] at hdecl
        cases hrec : link_loop rest (i + 1) inF secs with
        | none => rw [hrec] at h; simp at h
        | some r =>
          rw [hrec] at h
          simp only [Option.map_some'] at h
          cases h
          exact ih (i + 1) inF secs r.1 r.2 name hrec hdecl
      · rw [if_neg hin] at h
        rw [if_pos ⟨hsec, hin⟩] at hdecl
        have hd : (o.args.head? == some name) = false ∧
            body_declares rest inF name = false := by
          cases hb : (o.args.head? == some name) with
          | true => rw [hb] at hdecl; simp at hdecl
          | false => rw [hb] at hdecl; simp at hdecl; exact ⟨rfl, hdecl⟩
        cases hh : o.args.head? with
        | none =>
          simp only [hh] at h
          exact Option.noConfusion h
        | some nm =>
          simp only [hh] at h
          have hnm : ¬ nm = name := by
            have := hd.1
            rw [hh] at this
            simpa using this
          cases hrec : link_loop rest (i + 1) inF (dict_set secs nm (i + 1)) with
          | none => rw [hrec] at h; simp at h
          | some r =>
            rw [hrec] at h
            simp only [Option.map_some'] at h
            cases h
            rw [ih (i + 1) inF (dict_set secs nm (i + 1)) r.1 r.2 name hrec hd.2]
            rw [dict_get_set, if_neg (fun hx => hnm hx.symm)]
    · rw [if_neg hsec] at h
      rw [if_neg (fun hc => hsec hc.1)] at hdecl
      by_cases hf : o.command = cmd_func
      · rw [if_pos hf] at h
        rw [if_pos hf] at hdecl
        cases hrec : link_loop rest (i + 1) true secs with
        | none => rw [hrec] at h; simp at h
        | some r =>
          rw [hrec] at h
          simp only [Option.map_some'] at h
          cases h
          exact ih (i + 1) true secs r.1 r.2 name hrec hdecl
      · rw [if_neg hf] at h
        rw [if_neg hf] at hdecl
        by_cases he : o.command = cmd_endfunc
        · rw [if_pos he] at h
          rw [if_pos he] at hdecl
          cases hrec : link_loop rest (i + 1) false secs with
          | none => rw [hrec] at h; simp at h
          | some r =>
            rw [hrec] at h
            simp only [Option.map_some'] at h
            cases h
            exact ih (i + 1) false secs r.1 r.2 name hrec hdecl
        · rw [if_neg he] at h
          rw [if_neg he] at hdecl
          cases hrec : link_loop rest (i + 1) inF secs with
          | none => rw [hrec] at h; simp at h
          | some r =>
            rw [hrec] at h
            simp only [Option.map_some'] at h
            cases h
            exact ih (i + 1) inF secs r.1 r.2 name hrec hdecl

/-- A label declaration walked by the link pass at position `k` (with
no later declaration of the same label) ends up recorded in the section
table as the index of the operation immediately following it. -/
theorem link_loop_secs_decl :
    ∀ (ops : List Op) (i : Nat) (inF : Bool) (secs : List (String × Nat))
      (ops2 : List Op) (secs2 : List (String × Nat)) (k : Nat) (op : Op)
      (name : String),
      link_loop ops i inF secs = some (ops2, secs2) →
      ops.get? k = some op →
      op.command = cmd_section →
      op.args.head? = some name →
      func_toggle inF (ops.take k) = false →
      body_declares (ops.drop (k + 1)) false name = false →
      dict_get secs2 name = some (i + k + 1) := by
  intro ops
  induction ops with
  | nil =>
    intro i inF secs ops2 secs2 k op name h hget
    simp at hget
  | cons o rest ih =>
    intro i inF secs ops2 secs2 k op name h hget hcmd hname htog hlater
    rw [link_loop] at h
    cases k with
    | zero =>
      simp only [List.get?_cons_zero, Option.some.injEq] at hget
      subst hget
      simp only [List.take_zero, func_toggle] at htog
      simp only [List.foldl_nil] at htog
      subst htog
      rw [if_pos hcmd] at h
      rw [if_neg (by simp)] at h
      simp only [hname] at h
      cases hrec : link_loop rest (i + 1) false (dict_set secs name (i + 1)) with
      | none => rw [hrec] at h; simp at h
      | some r =>
        rw [hrec] at h
        simp only [Option.map_some'] at h
        cases h
        simp only [List.drop_succ_cons, List.drop_zero] at hlater
        rw [link_loop_secs_nodecl rest (i + 1) false (dict_set secs name (i + 1))
          r.1 r.2 name hrec hlater]
        rw [dict_get_set, if_pos rfl]
    | succ k =>
      simp only [List.get?_cons_succ] at hget
      rw [List.take_succ_cons, func_toggle_cons] at htog
      simp only [List.drop_succ_cons] at hlater
      by_cases hsec : o.command = cmd_section
      · rw [if_pos hsec] at h
        rw [toggle_step_section inF o hsec] at htog
        by_cases hin : inF
        · rw [if_pos hin] at h
          cases hrec : link_loop rest (i + 1) inF secs with
          | none => rw [hrec] at h; simp at h
          | some r =>
            rw [hrec] at h
            simp only [Option.map_some'] at h
            cases h
            have := ih (i + 1) inF secs r.1 r.2 k op name hrec hget hcmd hname htog hlater
            rw [this]
            congr 1
            omega
        · rw [if_neg hin] at h
          cases hh : o.args.head? with
          | none =>
            simp only [hh] at h
            exact Option.noConfusion h
          | some nm =>
            simp only [hh] at h
            cases hrec : link_loop rest (i + 1) inF (dict_set secs nm (i + 1)) with
            | none => rw [hrec] at h; simp at h
            | some r =>
              rw [hrec] at h
              simp only [Option.map_some'] at h
              cases h
              have := ih (i + 1) inF (dict_set secs nm (i + 1)) r.1 r.2 k op name
                hrec hget hcmd hname htog hlater
              rw [this]
              congr 1
              omega
      · rw [if_neg hsec] at h
        by_cases hf : o.command = cmd_func
        · rw [if_pos hf] at h
          rw [if_pos hf] at htog
          cases hrec : link_loop rest (i + 1) true secs with
          | none => rw [hrec] at h; simp at h
          | some r =>
            rw [hrec] at h
            simp only [Option.map_some'] at h
            cases h
            have := ih (i + 1) true secs r.1 r.2 k op name hrec hget hcmd hname htog hlater
            rw [this]
            congr 1
            omega
        · rw [if_neg hf] at h
          rw [if_neg hf] at htog
          by_cases he : o.command = cmd_endfunc
          · rw [if_pos he] at h
            rw [if_pos he] at htog
            cases hrec : link_loop rest (i + 1) false secs with
            | none => rw [hrec] at h; simp at h
            | some r =>
              rw [hrec] at h
              simp only [Option.map_some'] at h
              cases h
              have := ih (i + 1) false secs r.1 r.2 k op name hrec hget hcmd hname htog hlater
              rw [this]
              congr 1
              omega
          · rw [if_neg he] at h
            rw [if_neg he] at htog
            cases hrec : link_loop rest (i + 1) inF secs with
            | none => rw [hrec] at h; simp at h
            | some r =>
              rw [hrec] at h
              simp only [Option.map_some'] at h
              cases h
              have := ih (i + 1) inF secs r.1 r.2 k op name hrec hget hcmd hname htog hlater
              rw [this]
              congr 1
              omega

/-- Call-stack effect of `run_include`: a module already in the
idempotence set leaves the stack alone; a fresh module pushes exactly
one frame (whether its body splices or the splice loop raises, the
frame is already on the stack). -/
theorem run_include_next_states (p q : Program)
    (h : run_include p = .ok q) :
    q.states.length =
      (if p.included_modules.contains (mem_module_name p.mem)
       then p.states.length else p.states.length + 1) := by
  unfold run_include at h
  split at h
  · rename_i hc
    cases h
    rw [if_pos hc]
  · rename_i hc
    have hst := (exec_func_true_states (parse_module (mem_module_name p.mem)) _).1 q h
    rw [if_neg hc]
    simp [hst]

/-- Call-stack effect of the command chain and invocation fallback of
Program.run. -/
theorem run_rest_states_length (op : Op) (p q : Program)
    (hc1 : ¬ op.command = cmd_endfunc) (hc2 : ¬ op.command = cmd_popstate)
    (hcap : definition_capture p = false)
    (h : run_rest op p = .next q) :
    q.states.length =
      (if is_fresh_include op p then p.states.length + 1
       else if is_invocation op p then p.states.length + 1
       else p.states.length) := by
  unfold run_rest at h
  split at h
  · rename_i hpass
    cases h
    have hb : op.command ∈ builtin_commands := by
      rw [hpass]
      decide
    have hne : ¬ op.command = cmd_include := by
      rw [hpass]
      decide
    have hfi : is_fresh_include op p = false := by
      simp [is_fresh_include, hne]
    have hinv : is_invocation op p = false := by
      simp [is_invocation]
      intro _ _ _ hmem
      exact absurd hb hmem
    simp [hfi, hinv]
  · split at h
    · rename_i hinc
      have hb : op.command ∈ builtin_commands := by
        rw [hinc]
        decide
      have hinv : is_invocation op p = false := by
        simp [is_invocation]
        intro _ _ _ hmem
        exact absurd hb hmem
      cases hri : run_include p with
      | ok q2 =>
        rw [hri] at h
        cases h
        have heq := run_include_next_states p _ hri
        cases hm : p.included_modules.contains (mem_module_name p.mem) with
        | true =>
          have hm2 : mem_module_name p.mem ∈ p.included_modules := by
            simpa using hm
          have hfi : is_fresh_include op p = false := by
            simp [is_fresh_include]
            exact fun _ _ => hm2
          simp [hm2] at heq
          simp [hfi, hinv, heq]
        | false =>
          have hm2 : ¬ mem_module_name p.mem ∈ p.included_modules := by
            simpa using hm
          have hfi : is_fresh_include op p = true := by
            simp [is_fresh_include, hinc, hcap]
            exact hm2
          simp [hm2] at heq
          simp [hfi, heq]
      | error q2 =>
        rw [hri] at h
        simp at h
    · rename_i hninc
      have hfi : is_fresh_include op p = false := by
        simp [is_fresh_include, hninc]
      split at h
      · rename_i hbuiltin
        cases h
        have hb2 : op.command ∈ builtin_commands := by simpa using hbuiltin
        have hinv : is_invocation op p = false := by
          simp [is_invocation]
          intro _ _ _ hmem
          exact absurd hb2 hmem
        simp [run_builtin, hfi, hinv]
      · rename_i hnb
        unfold invoke at h
        cases hres : resolve_function p.functions p.current_namespace
            p.used_namespaces op.command with
        | error msg =>
          simp only [hres] at h
          have hq := raise_error_next_states _ _ _ _ _ h
          have hinv : is_invocation op p = false := by
            simp [is_invocation, hres, resolve_ok]
          simp [hfi, hinv, hq]
        | ok fb =>
          simp only [hres] at h
          have hinv : is_invocation op p = true := by
            simp [is_invocation, hc1, hc2, hcap, hres, resolve_ok]
            exact fun hx => hnb (by simpa using hx)
          cases hex : exec_func fb true
              (write_mem
                (if op.args_str = empty_str then .vstr empty_str
                 else eval_args_str op.args_str p) p) with
          | ok p2 =>
            rw [hex] at h
            cases h
            have hst := (exec_func_true_states fb _).1 _ hex
            simp [hfi, hinv, hst, write_mem]
          | error p2 =>
            rw [hex] at h
            have hq := raise_error_next_states _ _ _ _ _ h
            have hst := (exec_func_true_states fb _).2 p2 hex
            simp [hfi, hinv, hq, hst, write_mem]

/-- Effect of one dispatched operation on the call-stack depth: a
`popstate` with a non-empty stack pops exactly one frame (and pops none
on an empty stack), a fresh module inclusion and a successfully
resolved function invocation each push exactly one frame, and every
other operation leaves the depth unchanged. -/
theorem run_next_states_length (op0 : Op) (p q : Program)
    (h : run op0 p = .next q) :
    q.states.length =
      (if op0.command = cmd_popstate then
        (if p.states.isEmpty then p.states.length else p.states.length - 1)
      else if is_fresh_include op0 p then p.states.length + 1
      else if is_invocation op0 p then p.states.length + 1
      else p.states.length) := by
  unfold run at h
  simp only [set_operation_index] at h
  split at h
  · rename_i hc
    cases h
    have h1 : ¬ op0.command = cmd_popstate := by
      rw [hc]
      simp [cmd_endfunc, cmd_popstate]
    rw [if_neg h1]
    have h2 : ¬ op0.command = cmd_include := by
      rw [hc]
      simp [cmd_endfunc, cmd_include]
    have hfi : is_fresh_include op0 p = false := by
      simp [is_fresh_include, h2]
    have hinv : is_invocation op0 p = false := by
      simp [is_invocation, hc]
    simp [run_endfunc, hfi, hinv]
  · rename_i hc1
    split at h
    · rename_i hc2
      split at h
      · rename_i f rest hst
        cases h
        rw [if_pos hc2, hst]
        simp
      · rename_i hst
        cases h
        rw [if_pos hc2, hst]
        simp
    · rename_i hc2
      rw [if_neg hc2]
      have hiv : is_invocation { op0 with index := p.current_step } p =
          is_invocation op0 p := rfl
      have hfiv : is_fresh_include { op0 with index := p.current_step } p =
          is_fresh_include op0 p := rfl
      split at h
      · rename_i f hcf
        split at h
        · rename_i body hdg
          cases h
          have hfi : is_fresh_include op0 p = false := by
            simp [is_fresh_include, definition_capture, hcf, hdg]
          have hinv : is_invocation op0 p = false := by
            simp [is_invocation, definition_capture, hcf, hdg]
          simp [hfi, hinv]
        · rename_i hdg
          have hcap : definition_capture p = false := by
            simp [definition_capture, hcf, hdg]
          rw [← hiv, ← hfiv]
          exact run_rest_states_length _ p q hc1 hc2 hcap h
      · rename_i hcf
        have hcap : definition_capture p = false := by
          simp [definition_capture, hcf]
        rw [← hiv, ← hfiv]
        exact run_rest_states_length _ p q hc1 hc2 hcap h

/-- Dispatching `popstate` against a non-empty call stack pops exactly
the top frame and changes nothing else. -/
theorem run_popstate_cons (q : Program) (f : Frame) (rest : List Frame)
    (hq : q.states = f :: rest) :
    run popstate_op q = .next { q with states := rest } := by
  unfold run
  simp only [set_operation_index]
  rw [if_neg (by decide : ¬ popstate_op.command = cmd_endfunc)]
  rw [if_pos (by decide : popstate_op.command = cmd_popstate)]
  rw [hq]

/-- Dispatching `popstate` against an empty call stack is a silent
no-op. -/
theorem run_popstate_nil (q : Program) (hq : q.states = []) :
    run popstate_op q = .next q := by
  unfold run
  simp only [set_operation_index]
  rw [if_neg (by decide : ¬ popstate_op.command = cmd_endfunc)]
  rw [if_pos (by decide : popstate_op.command = cmd_popstate)]
  rw [hq]

/-- The synthesized `pass` operation dispatches to the bare `return` of
the command chain: no state component changes. -/
theorem run_pass_noop (q : Program) (hq : q.current_func = none) :
    run pass_op q = .next q := by
  unfold run
  simp only [set_operation_index]
  rw [if_neg (by decide : ¬ pass_op.command = cmd_endfunc)]
  rw [if_neg (by decide : ¬ pass_op.command = cmd_popstate)]
  rw [hq]
  unfold run_rest
  rw [if_pos (by decide : pass_op.command = cmd_pass)]

/-- C1 (counterexample): splicing k = 1 operation at position p = 1
leaves the Section Table entry `L -> 2` — which is strictly greater
than p — unchanged at 2, where the claim requires it to become
2 + k = 3: `update_section_indexes` shifts only entries strictly
greater than the insertion position p + 1, so the boundary entry p + 1
is never shifted. -/
theorem splice_shift_claim_counterexample :
    dict_get c1_spliced.sections lbl_l = some 2 ∧
    ¬ dict_get c1_spliced.sections lbl_l = some (2 + 1) := by
  constructor
  · rfl
  · decide

/-- C1 (amended): splicing a body whose loop inserts `j - p` operations
at position p increases every Section Table entry of a label the body
does not re-declare by exactly the inserted count when the entry is at
least p + 2, and leaves entries at most p + 1 — including the boundary
entry p + 1, contrary to the original claim — unchanged. -/
theorem splice_shift_amended (body : List Op) (p q : Program) (j : Nat)
    (name : String) (v : Nat)
    (h : splice_loop body p.current_step false p = .ok (q, j))
    (hdecl : body_declares body false name = false)
    (hv : dict_get p.sections name = some v) :
    dict_get q.sections name =
      some (if p.current_step + 2 ≤ v then v + (j - p.current_step) else v) :=
  splice_loop_sections body p.current_step false p q j name v h hdecl hv

/-- Witness for C1 (amended) at the concrete splice of one operation at
position 1: the entry `catch -> 5` moves to 6. -/
theorem splice_shift_amended_witness :
    splice_loop [op_out] 1 false c1_prog = .ok (c1_spliced, 2) ∧
    body_declares [op_out] false lbl_catch = false ∧
    dict_get c1_prog.sections lbl_catch = some 5 ∧
    dict_get c1_spliced.sections lbl_catch = some 6 := by
  refine ⟨rfl, by decide, rfl, ?_⟩
  have h := splice_shift_amended [op_out] c1_prog c1_spliced 2 lbl_catch 5
    rfl (by decide) rfl
  simpa [c1_prog, base_prog] using h

/-- C2 (counterexample): with `a.f` and `b.f` both defined and both
namespaces in use, an unqualified call to `f` resolves to `b.f` (the
break-less loop keeps overwriting, so the LAST declared namespace with
a match wins), while the claim's first-match rule picks `a.f`. -/
theorem resolve_first_match_counterexample :
    resolve_function ex_fns cur_m [ns_a, ns_b] name_f = .ok [pass_op] ∧
    resolve_spec_first ex_fns cur_m [ns_a, ns_b] name_f = .ok [op_out] ∧
    ¬ ([pass_op] : List Op) = [op_out] := by
  refine ⟨rfl, rfl, by decide⟩

/-- C2 (amended): unqualified-name resolution tries (a) the
current-namespace-qualified name, then (b) the used namespaces where
the LAST match in declaration order wins (an empty-bodied match being
falsy falls through), then (c) the bare global name, and otherwise
fails with the undefined-operation `SyntaxError` message. -/
theorem resolve_order_amended (fns : List (String × List Op)) (cur : String)
    (used : List String) (name : String) :
    resolve_function fns cur used name = resolve_spec_last fns cur used name := by
  unfold resolve_function resolve_spec_last last_used_match
  rw [foldl_overwrite_eq_last (fun ns => dict_get fns (ns ++ dot_str ++ name))
    used none]

/-- C3 (counterexample): the caller starts with `x = 1`, a call is
entered (frame with a snapshot pushed), the callee body sets `x = 2`,
and the matching `popstate` pops the frame WITHOUT restoring the
Variable Store — afterwards the caller observes `x = 2`, not the `1`
the claim promises. -/
theorem call_isolation_counterexample :
    get_var var_x c3_start = some (Val.vnat 1) ∧
    (match run popstate_op (set_var var_x (Val.vnat 2) c3_called) with
     | .next q => (get_var var_x q, q.states.length)
     | _ => (none, 99)) = (some (Val.vnat 2), 0) ∧
    ¬ (some (Val.vnat 2)) = some (Val.vnat 1) := by
  refine ⟨rfl, rfl, by decide⟩

/-- C3 (amended): the pushed frame does carry a copy of the Variable
Store (the snapshot equals the caller's pre-call store and is not an
alias), but `popstate` merely pops the frame and does not restore the
store from it, so a variable mutated inside the call remains mutated
for the caller after the call returns. -/
theorem call_snapshot_amended (p : Program) (fb : List Op) (x : String)
    (v : Val) (p1 : Program) (hex : exec_func fb true p = .ok p1) :
    p1.states.head? = some (Frame.mk p.current_step p.vars) ∧
    run popstate_op (set_var x v p1) =
      .next { (set_var x v p1) with states := p.states } ∧
    get_var x { (set_var x v p1) with states := p.states } = some v := by
  have hst := (exec_func_true_states fb p).1 p1 hex
  refine ⟨by rw [hst]; rfl, ?_, ?_⟩
  · have hq : (set_var x v p1).states = Frame.mk p.current_step p.vars :: p.states := by
      rw [set_var]
      exact hst
    exact run_popstate_cons (set_var x v p1) (Frame.mk p.current_step p.vars) p.states hq
  · show dict_get (dict_set p1.vars x v) x = some v
    rw [dict_get_set, if_pos rfl]

/-- Witness for C3 (amended) at the concrete call of an empty body from
a caller holding `x = 1`. -/
theorem call_snapshot_amended_witness :
    exec_func [] true c3_start = .ok c3_called ∧
    c3_called.states.head? = some (Frame.mk c3_start.current_step c3_start.vars) :=
  ⟨rfl, (call_snapshot_amended c3_start [] var_x (Val.vnat 2) c3_called rfl).1⟩

/-- C4: raising an error while a try-context is armed with label L
clears the try-context, redirects the program counter to
`sections[L] - 1` (so the default `+ 1` lands on the target), writes
the payload `{kind, message, index}` into the mem register overwriting
whatever it held, and any second error raised in the resulting state
without a new `try` takes the unarmed path. -/
theorem raise_armed_consumes_try (p : Program) (lbl : String) (t : Nat)
    (k m : String) (op : Op)
    (h1 : p.is_in_try = some lbl)
    (h2 : dict_get p.sections lbl = some t)
    (h3 : 1 ≤ t) :
    raise_error k m op p =
      .next (write_mem (Val.verror k m op.index)
        { p with is_in_try := none, current_step := t - 1 }) ∧
    (t - 1) + 1 = t ∧
    (∀ (k2 m2 : String) (op2 : Op),
      raise_error k2 m2 op2
          (write_mem (Val.verror k m op.index)
            { p with is_in_try := none, current_step := t - 1 }) =
        raise_unarmed k2 m2 op2
          (write_mem (Val.verror k m op.index)
            { p with is_in_try := none, current_step := t - 1 })) := by
  refine ⟨?_, by omega, ?_⟩
  · unfold raise_error
    simp only [h1, h2]
  · intro k2 m2 op2
    rfl

/-- Witness for C4 at a concrete armed state with `catch -> 2`. -/
theorem raise_armed_consumes_try_witness :
    c4_prog.is_in_try = some lbl_catch ∧
    dict_get c4_prog.sections lbl_catch = some 2 ∧
    (1 : Nat) ≤ 2 ∧
    raise_error err_runtime ex_msg op_out c4_prog =
      .next (write_mem (Val.verror err_runtime ex_msg op_out.index)
        { c4_prog with is_in_try := none, current_step := 2 - 1 }) :=
  ⟨rfl, rfl, by decide,
    (raise_armed_consumes_try c4_prog lbl_catch 2 err_runtime ex_msg op_out
      rfl rfl (by decide)).1⟩

/-- C5: entering `exec_func` as a call whose program-counter value is
already in the `runed_functions` guard set pushes the frame and returns
immediately — the function body is not spliced into the Operation
Stream again (operations, sections and the guard set itself are
returned unchanged). -/
theorem exec_func_reentrancy_guard (p : Program) (fb : List Op)
    (h : p.runed_functions.contains p.current_step = true) :
    exec_func fb true p =
      .ok { p with states := Frame.mk p.current_step p.vars :: p.states } := by
  simp [exec_func, h]
  intro hmem
  exact absurd (by simpa using h) hmem

/-- Witness for C5 at a concrete guarded state. -/
theorem exec_func_reentrancy_guard_witness :
    c5_prog.runed_functions.contains c5_prog.current_step = true ∧
    exec_func [op_out] true c5_prog =
      .ok { c5_prog with
              states := Frame.mk c5_prog.current_step c5_prog.vars :: c5_prog.states } :=
  ⟨by decide, exec_func_reentrancy_guard c5_prog [op_out] (by decide)⟩

/-- C6 (counterexample): running the one-operation program `popstate`
executes a popstate that pops ZERO frames (the stack is empty before
and after), contradicting the claim that each popstate pops exactly
one frame. -/
theorem popstate_pop_count_counterexample :
    step ex_popstate_prog = .running { ex_popstate_prog with current_step := 1 } ∧
    ex_popstate_prog.states.length = 0 ∧
    ¬ ex_popstate_prog.states.length =
        ({ ex_popstate_prog with current_step := 1 } : Program).states.length + 1 := by
  refine ⟨rfl, rfl, by decide⟩

/-- C6 (amended): per dispatched operation, a successfully resolved
function invocation pushes exactly one frame, an `include` of a module
not already in the idempotence set likewise pushes exactly one frame (a
repeated include is skipped and pushes none), a popstate with a
non-empty Call Stack pops exactly one frame, a popstate with an empty
stack pops none, and no other operation changes the stack depth — so
along any execution the depth equals the number of function/include
invocations performed minus the number of frame-popping popstates. -/
theorem stack_depth_step_amended (op : Op) (p q : Program)
    (h : run op p = .next q) :
    q.states.length =
      (if op.command = cmd_popstate then
        (if p.states.isEmpty then p.states.length else p.states.length - 1)
      else if is_fresh_include op p then p.states.length + 1
      else if is_invocation op p then p.states.length + 1
      else p.states.length) :=
  run_next_states_length op p q h

/-- Witness for C6 (amended) at a concrete frame-popping popstate. -/
theorem stack_depth_step_amended_witness :
    run popstate_op c6_prog = .next c6_popped ∧
    c6_popped.states.length =
      (if popstate_op.command = cmd_popstate then
        (if c6_prog.states.isEmpty then c6_prog.states.length
         else c6_prog.states.length - 1)
      else if is_fresh_include popstate_op c6_prog then c6_prog.states.length + 1
      else if is_invocation popstate_op c6_prog then c6_prog.states.length + 1
      else c6_prog.states.length) :=
  ⟨rfl, stack_depth_step_amended popstate_op c6_prog c6_popped rfl⟩

/-- C7: the link pass is a single forward pass that, for every `section`
operation not nested in a function-definition region (and not
re-declared later), records `label -> index + 1` in the Section Table
and replaces the declaration in place with the synthesized `pass`
operation; all other positions are untouched, and `pass` dispatches as
a no-op, so revisits of the former declaration position have no label
side effect. -/
theorem link_pass_characterization (ops ops2 : List Op)
    (secs : List (String × Nat)) (k : Nat) (op : Op) (name : String)
    (h : link_pass ops = some (ops2, secs))
    (hget : ops.get? k = some op)
    (hcmd : op.command = cmd_section)
    (hname : op.args.head? = some name)
    (htog : func_toggle false (ops.take k) = false)
    (hlater : body_declares (ops.drop (k + 1)) false name = false) :
    ops2.get? k = some pass_op ∧
    dict_get secs name = some (k + 1) ∧
    (∀ (j : Nat) (opj : Op), ops.get? j = some opj →
      ¬ (opj.command = cmd_section ∧ func_toggle false (ops.take j) = false) →
      ops2.get? j = some opj) ∧
    (∀ (q : Program), q.current_func = none → run pass_op q = .next q) := by
  unfold link_pass at h
  refine ⟨?_, ?_, ?_, fun q hq => run_pass_noop q hq⟩
  · rw [link_loop_get ops 0 false [] ops2 secs h k op hget]
    rw [if_pos ⟨hcmd, htog⟩]
  · have := link_loop_secs_decl ops 0 false [] ops2 secs k op name
      h hget hcmd hname htog hlater
    simpa using this
  · intro j opj hgj hnj
    rw [link_loop_get ops 0 false [] ops2 secs h j opj hgj]
    rw [if_neg hnj]

/-- Witness for C7 at the concrete program `out; section L; out`. -/
theorem link_pass_characterization_witness :
    link_pass [op_out, op_section_l, op_out] =
      some ([op_out, pass_op, op_out], [(lbl_l, 2)]) ∧
    ([op_out, pass_op, op_out] : List Op).get? 1 = some pass_op ∧
    dict_get [(lbl_l, 2)] lbl_l = some 2 := by
  refine ⟨rfl, ?_, ?_⟩
  · exact (link_pass_characterization [op_out, op_section_l, op_out]
      [op_out, pass_op, op_out] [(lbl_l, 2)] 1 op_section_l lbl_l
      rfl rfl rfl rfl (by decide) (by decide)).1
  · exact (link_pass_characterization [op_out, op_section_l, op_out]
      [op_out, pass_op, op_out] [(lbl_l, 2)] 1 op_section_l lbl_l
      rfl rfl rfl rfl (by decide) (by decide)).2.1

/-- C8: the mem register holds at most one pending value — `get_mem`
returns the current value and leaves the register empty (a second read
yields nothing), and a second write before any read overwrites the
first with no queuing. -/
theorem mem_register_single_slot (p : Program) (v1 v2 : Val) :
    (get_mem p).1 = p.mem ∧
    (get_mem p).2 = { p with mem := none } ∧
    (get_mem (get_mem p).2).1 = none ∧
    (get_mem (write_mem v2 (write_mem v1 p))).1 = some v2 :=
  ⟨rfl, rfl, rfl, rfl⟩

/-- C9: raising with no armed try-context in test/harness mode records
`[kind, message, operation]` on the program state and returns — the
program counter is untouched (the result state differs only in
`runtime_error`), the process is not terminated and no diagnostic is
rendered (the result is `next`, not `fatal`). -/
theorem raise_unarmed_test_records (p : Program) (k m : String) (op : Op)
    (h1 : p.is_in_try = none) (h2 : p.is_test = true) :
    raise_error k m op p =
      .next { p with runtime_error := some (k, m, op) } := by
  unfold raise_error raise_unarmed
  simp only [h1, h2, if_true]

/-- Witness for C9 at the test-mode base state. -/
theorem raise_unarmed_test_records_witness :
    base_prog.is_in_try = none ∧
    base_prog.is_test = true ∧
    raise_error err_runtime ex_msg op_out base_prog =
      .next { base_prog with runtime_error := some (err_runtime, ex_msg, op_out) } :=
  ⟨rfl, rfl, raise_unarmed_test_records base_prog err_runtime ex_msg op_out rfl rfl⟩

/-- C10: executing a `popstate` operation with an empty Call Stack is a
silent no-op — no error is raised, the stack stays empty, every other
state component is unchanged, and the program counter advances by the
default `+ 1`. -/
theorem popstate_empty_stack_noop (p : Program) (op : Op)
    (h1 : p.operations.get? p.current_step = some op)
    (h2 : op.command = cmd_popstate)
    (h3 : p.states = []) :
    step p = .running { p with current_step := p.current_step + 1 } := by
  unfold step
  simp only [h1]
  have hrun : run op p = .next p := by
    unfold run
    simp only [set_operation_index]
    rw [if_neg (by rw [h2]; decide)]
    rw [if_pos h2]
    rw [h3]
  simp only [hrun]

/-- Witness for C10 at the one-operation `popstate` program. -/
theorem popstate_empty_stack_noop_witness :
    ex_popstate_prog.operations.get? ex_popstate_prog.current_step = some popstate_op ∧
    popstate_op.command = cmd_popstate ∧
    ex_popstate_prog.states = [] ∧
    step ex_popstate_prog =
      .running { ex_popstate_prog with current_step := ex_popstate_prog.current_step + 1 } :=
  ⟨rfl, rfl, rfl, popstate_empty_stack_noop ex_popstate_prog popstate_op rfl rfl rfl⟩
